import Mathlib

/-
Verification development for the `hierarchy` command-line utility
(KohlsTechnology/hierarchy, src/main.go).

The embedding models the program's pure core directly from the source:
the hierarchy resolver (processHierarchy), the file-discovery filter
(getFiles), the merge driver (mergeFilesInHierarchy), the environment
variable substituter (replaceEnvironmentVariables), and the orchestrator
(main).  All interaction with the operating system (stat, open/read,
directory listing, environment lookup, the regexp engine used for the
file filter, and path joining) is abstracted into a record of functions
`Sys`; fallible operations return `Except String`, mirroring the
program's `checkForError`/`log.Fatal` convention where any error
terminates the process.

The deep-merge operation itself lives in the vendored third-party
library `mergo` (invoked as `mergo.Merge(&data, mergeData,
mergo.WithOverride)`), whose source is not part of this repository; it
is modelled from the specification's description of deep merge with
override.
-/

/-- A YAML value as produced by decoding a fragment file into
`map[string]interface{}`: scalars, sequences, and nested mappings.
A mapping is a list of key/value pairs. -/
inductive Val where
  | vstr : String → Val
  | vint : Int → Val
  | vbool : Bool → Val
  | vnull : Val
  | vseq : List Val → Val
  | vmap : List (String × Val) → Val

/-- Look up a key in an association-list mapping (first match wins). -/
def lookupKV (k : String) : List (String × Val) → Option Val
  | [] => none
  | (k1, v) :: rest => if k = k1 then some v else lookupKV k rest

mutual

/-- Modelled from the spec: the deep merge performed by the vendored
`mergo` library with override semantics, which is not part of this
repository's source.  "for each key present in both, if both values are
mappings, merge them recursively (same rule applied at every nesting
level); otherwise the incoming value replaces the existing one; keys
present only in one side are carried through unchanged."  The first
argument is the accumulator (dst), the second the incoming fragment
(src). -/
def Val.merge : Val → Val → Val
  | Val.vmap d, Val.vmap s => Val.vmap (mergeMap d s)
  | _, s => s
termination_by v _ => 3 * sizeOf v + 2

/-- Modelled from the spec: merge two mappings; keys of the accumulator
are updated in place (recursively merged or overridden), keys present
only in the incoming mapping are appended. -/
def mergeMap : List (String × Val) → List (String × Val) → List (String × Val)
  | d, s => mergeOld d s ++ s.filter (fun e => (lookupKV e.1 d).isNone)
termination_by d _ => 3 * sizeOf d + 1

/-- Modelled from the spec: rebuild the accumulator's entries, merging
each with the incoming value at the same key when present. -/
def mergeOld : List (String × Val) → List (String × Val) → List (String × Val)
  | [], _ => []
  | (k, v) :: rest, s => (k, overrideVal s k v) :: mergeOld rest s
termination_by d _ => 3 * sizeOf d

/-- Modelled from the spec: the value stored for an accumulator key
after one merge step: if the incoming mapping also binds the key, the
two values are merged (recursively for mappings, override otherwise),
else the existing value is kept. -/
def overrideVal (s : List (String × Val)) (k : String) (v : Val) : Val :=
  match lookupKV k s with
  | some sv => Val.merge v sv
  | none => v
termination_by 3 * sizeOf v + 3

end

/-- ASCII letter test, the character class written `[A-Za-z]` in the
variable-name pattern of replaceEnvironmentVariables (src/main.go:270). -/
def isAsciiLetter (c : Char) : Bool :=
  (decide ('A' ≤ c) && decide (c ≤ 'Z')) || (decide ('a' ≤ c) && decide (c ≤ 'z'))

/-- The continuation character class of the variable-name pattern,
written as the character class matching a closing bracket, an opening
bracket, letters, underscore, digits and period in src/main.go:270.
Deliberately permissive: literal brackets are allowed inside a name. -/
def isNameChar (c : Char) : Bool :=
  c = ']' || c = '[' || isAsciiLetter c || c = '_' ||
    (decide ('0' ≤ c) && decide (c ≤ '9')) || c = '.'

/-- The matches of the token pattern of src/main.go:270 in a character
list, leftmost first and non-overlapping, exactly as
`regexp.FindAllString(str, -1)` produces them: a match is a dollar sign,
an opening brace, a letter, a possibly empty run of name characters, and
a closing brace; since the closing brace is not a name character the run
is maximal and matching is deterministic.  The fuel argument (first) is
instantiated with the length of the list, which every recursive call
preserves as an upper bound. -/
def findTokensFuel : Nat → List Char → List String
  | 0, _ => []
  | _ + 1, [] => []
  | fuel + 1, c :: rest =>
    if c = '$' then
      match rest with
      | c1 :: c2 :: rest2 =>
        if c1 = '{' && isAsciiLetter c2 then
          match List.dropWhile isNameChar (c2 :: rest2) with
          | c3 :: rest3 =>
            if c3 = '}' then
              String.mk ('$' :: '{' ::
                  (List.takeWhile isNameChar (c2 :: rest2) ++ ['}'])) ::
                findTokensFuel fuel rest3
            else findTokensFuel fuel rest
          | [] => findTokensFuel fuel rest
        else findTokensFuel fuel rest
      | _ => findTokensFuel fuel rest
    else findTokensFuel fuel rest

/-- All matches of the variable-token pattern in a string
(src/main.go:270-271). -/
def findTokens (s : String) : List String :=
  findTokensFuel s.data.length s.data

/-- Models Go strings.TrimPrefix: drop the prefix when present,
otherwise return the string unchanged. -/
def goTrimPrefix (s pre : String) : String :=
  if pre.data.isPrefixOf s.data then String.mk (s.data.drop pre.data.length) else s

/-- Models Go strings.TrimSuffix: drop the suffix when present,
otherwise return the string unchanged. -/
def goTrimSuffix (s suf : String) : String :=
  if suf.data.reverse.isPrefixOf s.data.reverse then
    String.mk ((s.data.reverse.drop suf.data.length).reverse)
  else s

/-- The variable name inside a matched token: strip the leading dollar
sign and opening brace and the trailing closing brace
(src/main.go:272-273). -/
def stripToken (tok : String) : String :=
  goTrimSuffix (goTrimPrefix tok (String.mk ['$', '{'])) (String.mk ['}'])

/-- Models Go strings.ToUpper on the ASCII range used by environment
variable names (src/main.go:274). -/
def goToUpper (s : String) : String := String.mk (s.data.map Char.toUpper)

/-- Models Go strings.ReplaceAll on character lists: scan left to
right; at each position, if the pattern starts here, emit the
replacement and continue after the pattern, otherwise copy one
character.  The fuel argument is instantiated with the length of the
scanned list, which bounds the number of steps. -/
def replaceAllFuel : Nat → List Char → List Char → List Char → List Char
  | 0, s, _, _ => s
  | _ + 1, [], _, _ => []
  | fuel + 1, c :: rest, pat, rep =>
    if pat ≠ [] && pat.isPrefixOf (c :: rest) then
      rep ++ replaceAllFuel fuel (List.drop (pat.length - 1) rest) pat rep
    else c :: replaceAllFuel fuel rest pat rep

/-- Models Go strings.ReplaceAll (src/main.go:286). -/
def goReplaceAll (s pat rep : String) : String :=
  String.mk (replaceAllFuel s.data.length s.data pat.data rep.data)

/-- One iteration of the loop of replaceEnvironmentVariables
(src/main.go:271-288) over a single matched token: strip the
delimiters, uppercase the name, look it up in the environment; an empty
value counts as not defined and is fatal or skipped per the
`failMissing` policy; a non-empty value replaces every occurrence of
the token in the current string. -/
def substToken (getenv : String → String) (failMissing : Bool) (s : String)
    (tok : String) : Except String String :=
  if (getenv (goToUpper (stripToken tok))).length = 0 then
    if failMissing then Except.error "Environment variable not defined"
    else Except.ok s
  else Except.ok (goReplaceAll s tok (getenv (goToUpper (stripToken tok))))

/-- replaceEnvironmentVariables (src/main.go:265-290): the token list is
computed once from the input string, then each token is processed in
order against the evolving string. -/
def replaceEnvironmentVariables (getenv : String → String) (str : String)
    (failMissing : Bool) : Except String String :=
  (findTokens str).foldlM (substToken getenv failMissing) str

/-- One entry of a directory listing as returned by ioutil.ReadDir:
its base name and whether it is itself a directory. -/
structure DirEntry where
  name : String
  isDir : Bool

/-- The operating-system surface the program touches, abstracted as
pure functions.  `statOk p` models `os.Stat(p)` succeeding; `isDir p`
models `stat.IsDir()`; `readLines p` models opening the hierarchy file
and reading it line by line (a failure models the fatal `os.Open` or
read error); `readDir` models ioutil.ReadDir; `readFile` models
ioutil.ReadFile; `yamlParse` models yaml.Unmarshal of a fragment into a
top-level mapping; `yamlMarshal` models yaml.Marshal of the accumulator
(total: marshalling the decoded data cannot realistically fail);
`getenv` models os.Getenv, returning the empty string for an unset
variable; `matchString pat s` models regexp.MatchString, whose error
case is a pattern-compilation failure; `pathJoin` models path.Join. -/
structure Sys where
  statOk : String → Bool
  isDir : String → Bool
  readLines : String → Except String (List String)
  readDir : String → Except String (List DirEntry)
  readFile : String → Except String String
  yamlParse : String → Except String (List (String × Val))
  yamlMarshal : List (String × Val) → String
  getenv : String → String
  matchString : String → String → Except String Bool
  pathJoin : String → String → String

/-- The configuration record of src/main.go:38-51, restricted to the
fields that influence the behaviour modelled here (the logging and
version flags only affect log output). -/
structure Config where
  hierarchyFile : String
  basePath : String
  outputFile : String
  filterExtension : String
  failMissingHierarchy : Bool
  failMissingPath : Bool
  failMissingEnvVar : Bool
  skipEnvVarContent : Bool

/-- True exactly when the computation ended in the fatal-error state
(`checkForError`/`log.Fatal` terminating the process). -/
def isFatal {α : Type} : Except String α → Bool
  | Except.error _ => true
  | Except.ok _ => false

/-- The part of a hierarchy-file line before the first number sign,
`strings.Split(line, "#")[0]` (src/main.go:141). -/
def beforeComment (line : String) : String :=
  String.mk (line.data.takeWhile (fun c => c ≠ '#'))

/-- Models Go strings.TrimSpace on the ASCII whitespace characters. -/
def goTrimSpace (s : String) : String :=
  String.mk (((s.data.dropWhile Char.isWhitespace).reverse.dropWhile
    Char.isWhitespace).reverse)

/-- Comment stripping then whitespace trimming of one hierarchy-file
line (src/main.go:141-142), before environment-variable substitution. -/
def prepLine (line : String) : String := goTrimSpace (beforeComment line)

/-- The body of the line loop of processHierarchy (src/main.go:134-172)
for one line, acting on the accumulated directory list: strip comments
and whitespace, substitute environment variables with the fail-on-missing
policy hardcoded to true, and, when the result is non-empty, join it
onto the base path and keep it only when it is an existing directory;
a missing directory is fatal exactly when failMissingPath is set. -/
def processHierarchyLine (sys : Sys) (cfg : Config) (acc : List String)
    (line : String) : Except String (List String) :=
  match replaceEnvironmentVariables sys.getenv (prepLine line) true with
  | Except.error e => Except.error e
  | Except.ok includePath =>
    if includePath.length > 0 then
      let cand := sys.pathJoin cfg.basePath includePath
      if sys.statOk cand && sys.isDir cand then Except.ok (acc ++ [cand])
      else if cfg.failMissingPath then Except.error "Hierarchy directory not found"
      else Except.ok acc
    else Except.ok acc

/-- processHierarchy (src/main.go:109-177).  When the hierarchy file is
absent and failMissingHierarchy is false, the Go code appends the base
path, assigns true to the failMissingPath field of its by-value config
copy, and returns at once (src/main.go:115-125); the shadowing `let`
mirrors that assignment.  Otherwise the file is read and each line is
processed in order. -/
def processHierarchy (sys : Sys) (cfg : Config) : Except String (List String) :=
  let hierarchyFilePath := sys.pathJoin cfg.basePath cfg.hierarchyFile
  if !sys.statOk hierarchyFilePath && !cfg.failMissingHierarchy then
    let cfg := { cfg with failMissingPath := true }
    Except.ok [cfg.basePath]
  else
    match sys.readLines hierarchyFilePath with
    | Except.error e => Except.error e
    | Except.ok lines => lines.foldlM (processHierarchyLine sys cfg) []

/-- getFiles (src/main.go:240-261): a failing directory listing is
fatal; each non-directory entry whose name the filter matches without a
regexp error is appended, in listing order; entries for which the
matcher errors or returns false are ignored. -/
def getFiles (sys : Sys) (includePath : String) (fileFilter : String) :
    Except String (List String) :=
  match sys.readDir includePath with
  | Except.error e => Except.error e
  | Except.ok entries =>
    Except.ok (entries.foldl (fun acc fi =>
      if !fi.isDir then
        match sys.matchString fileFilter fi.name with
        | Except.ok true => acc ++ [sys.pathJoin includePath fi.name]
        | _ => acc
      else acc) [])

/-- The per-file step of the merge loop (src/main.go:194-218): read the
file, decode it as a YAML mapping, and deep-merge it into the
accumulator with override semantics; read and parse errors are fatal. -/
def mergeOneFile (sys : Sys) (data : List (String × Val)) (file : String) :
    Except String (List (String × Val)) :=
  match sys.readFile file with
  | Except.error e => Except.error e
  | Except.ok content =>
    match sys.yamlParse content with
    | Except.error e => Except.error e
    | Except.ok mergeData => Except.ok (mergeMap data mergeData)

/-- The per-directory step of the merge loop (src/main.go:188-219):
discover the matching files of the directory, then fold the per-file
step over them in listing order. -/
def mergeOneDir (sys : Sys) (fileFilter : String) (data : List (String × Val))
    (includePath : String) : Except String (List (String × Val)) :=
  match getFiles sys includePath fileFilter with
  | Except.error e => Except.error e
  | Except.ok files => files.foldlM (mergeOneFile sys) data

/-- The output post-processing of mergeFilesInHierarchy
(src/main.go:229-233): the serialized document is passed through the
environment-variable substituter with the configured failMissingEnvVar
policy unless skipEnvVarContent suppresses substitution entirely. -/
def finalizeOutput (getenv : String → String)
    (skipEnvVarContent failMissingEnvVar : Bool) (yamlDocStr : String) :
    Except String String :=
  if skipEnvVarContent then Except.ok yamlDocStr
  else replaceEnvironmentVariables getenv yamlDocStr failMissingEnvVar

/-- mergeFilesInHierarchy (src/main.go:183-237), returning the text
written to the output file: fold the per-directory step over the
resolved hierarchy starting from the empty accumulator, serialize, and
post-process. -/
def mergeFilesInHierarchy (sys : Sys) (hierarchy : List String)
    (fileFilter : String) (skipEnvVarContent failMissingEnvVar : Bool) :
    Except String String :=
  match hierarchy.foldlM (mergeOneDir sys fileFilter) [] with
  | Except.error e => Except.error e
  | Except.ok data =>
    finalizeOutput sys.getenv skipEnvVarContent failMissingEnvVar
      (sys.yamlMarshal data)

/-- The externally visible filesystem effects of one run of main:
removal of the pre-existing output file (src/main.go:322-328) and the
final write of the merged document (src/main.go:234). -/
inductive MainEvent where
  | removeOut : String → MainEvent
  | writeOut : String → String → MainEvent

/-- main (src/main.go:292-335) after flag parsing and log setup: delete
a pre-existing output file, resolve the hierarchy, merge, and write the
result; the returned list records the filesystem effects in program
order, and the Except value the final outcome.  A fatal error at any
stage stops the run before the write. -/
def mainRun (sys : Sys) (cfg : Config) : List MainEvent × Except String String :=
  let pre := if sys.statOk cfg.outputFile then [MainEvent.removeOut cfg.outputFile] else []
  match processHierarchy sys cfg with
  | Except.error e => (pre, Except.error e)
  | Except.ok hierarchy =>
    match mergeFilesInHierarchy sys hierarchy cfg.filterExtension
        cfg.skipEnvVarContent cfg.failMissingEnvVar with
    | Except.error e => (pre, Except.error e)
    | Except.ok out => (pre ++ [MainEvent.writeOut cfg.outputFile out], Except.ok out)

/-- Effect of one recorded filesystem event on the file-existence
predicate. -/
def applyEvent (ex : String → Bool) : MainEvent → (String → Bool)
  | MainEvent.removeOut p => fun q => if q = p then false else ex q
  | MainEvent.writeOut p _ => fun q => if q = p then true else ex q

/-- Whether a path exists after the recorded events of a run have been
applied to the initial filesystem state. -/
def existsAfter (sys : Sys) (evs : List MainEvent) (p : String) : Bool :=
  (evs.foldl applyEvent sys.statOk) p

/-- The directory a hierarchy-file line contributes, if any: the line
(comment-stripped and trimmed) must be non-empty, and joined onto the
base path must name an existing directory.  This is the specification's
description of which listed entries the resolver keeps. -/
def goodDir (sys : Sys) (cfg : Config) (line : String) : Option String :=
  if (prepLine line).length > 0 then
    if sys.statOk (sys.pathJoin cfg.basePath (prepLine line)) &&
        sys.isDir (sys.pathJoin cfg.basePath (prepLine line)) then
      some (sys.pathJoin cfg.basePath (prepLine line))
    else none
  else none

/-- A concrete system for exercising the resolver: a base directory
holding a hierarchy file that lists an existing directory (with an
inline comment), a blank line, a comment-only line, a second existing
directory, and a missing one. -/
def sysHier : Sys :=
  { statOk := fun p => p == "base/hierarchy.lst" || p == "base/d1" || p == "base/d2",
    isDir := fun p => p == "base/d1" || p == "base/d2",
    readLines := fun p =>
      if p == "base/hierarchy.lst" then
        Except.ok ["d1 # first layer", "", "# a comment", "d2", "missing"]
      else Except.error "open",
    readDir := fun _ => Except.error "readdir",
    readFile := fun _ => Except.error "read",
    yamlParse := fun _ => Except.error "parse",
    yamlMarshal := fun _ => "",
    getenv := fun _ => "",
    matchString := fun _ _ => Except.ok false,
    pathJoin := fun a b => a ++ "/" ++ b }

/-- A configuration that skips missing hierarchy directories. -/
def cfgLoose : Config :=
  { hierarchyFile := "hierarchy.lst", basePath := "base",
    outputFile := "out.yaml", filterExtension := "x",
    failMissingHierarchy := false, failMissingPath := false,
    failMissingEnvVar := false, skipEnvVarContent := false }

/-- The same configuration with the fail-on-missing-path policy set. -/
def cfgStrict : Config := { cfgLoose with failMissingPath := true }

/-- The environment with only the variable named ENVIRONMENT set, to
the value dev. -/
def envDev : String → String := fun n => if n == "ENVIRONMENT" then "dev" else ""

/-- A concrete system whose hierarchy file holds one line with a
variable placeholder and whose environment is entirely unset. -/
def sysEnvLine : Sys :=
  { statOk := fun p => p == "base/hierarchy.lst",
    isDir := fun _ => false,
    readLines := fun p =>
      if p == "base/hierarchy.lst" then
        Except.ok ["environments/$\x7bENVIRONMENT\x7d"]
      else Except.error "open",
    readDir := fun _ => Except.error "readdir",
    readFile := fun _ => Except.error "read",
    yamlParse := fun _ => Except.error "parse",
    yamlMarshal := fun _ => "",
    getenv := fun _ => "",
    matchString := fun _ _ => Except.ok false,
    pathJoin := fun a b => a ++ "/" ++ b }

/-- A concrete system whose merged document serializes to a text with
one placeholder and whose environment is entirely unset. -/
def sysOut : Sys :=
  { statOk := fun _ => false,
    isDir := fun _ => false,
    readLines := fun _ => Except.error "open",
    readDir := fun _ => Except.error "readdir",
    readFile := fun _ => Except.error "read",
    yamlParse := fun _ => Except.error "parse",
    yamlMarshal := fun _ => "greeting: $\x7bGREETING\x7d\n",
    getenv := fun _ => "",
    matchString := fun _ _ => Except.ok false,
    pathJoin := fun a b => a ++ "/" ++ b }

/-- A concrete system where the configured output file exists and the
run is fatal (the hierarchy file is reported present but cannot be
read). -/
def sysStale : Sys :=
  { statOk := fun _ => true,
    isDir := fun _ => false,
    readLines := fun _ => Except.error "permission denied",
    readDir := fun _ => Except.error "readdir",
    readFile := fun _ => Except.error "read",
    yamlParse := fun _ => Except.error "parse",
    yamlMarshal := fun _ => "",
    getenv := fun _ => "",
    matchString := fun _ _ => Except.ok false,
    pathJoin := fun a b => a ++ "/" ++ b }

/-- A concrete system with one hierarchy entry, one matching fragment
file, and no variable placeholder anywhere. -/
def sysDet : Sys :=
  { statOk := fun p => p == "b/hierarchy.lst" || p == "b/d1",
    isDir := fun p => p == "b/d1",
    readLines := fun p =>
      if p == "b/hierarchy.lst" then Except.ok ["d1"] else Except.error "open",
    readDir := fun p =>
      if p == "b/d1" then Except.ok [{ name := "app.yaml", isDir := false }]
      else Except.error "readdir",
    readFile := fun p =>
      if p == "b/d1/app.yaml" then Except.ok "a: 1" else Except.error "read",
    yamlParse := fun c =>
      if c == "a: 1" then Except.ok [("a", Val.vint 1)] else Except.error "parse",
    yamlMarshal := fun _ => "a: 1\n",
    getenv := fun _ => "",
    matchString := fun _ n => Except.ok (n == "app.yaml"),
    pathJoin := fun a b => a ++ "/" ++ b }

/-- The configuration for the determinism witness, with content
substitution disabled. -/
def cfgDet : Config :=
  { hierarchyFile := "hierarchy.lst", basePath := "b",
    outputFile := "out.yaml", filterExtension := "app",
    failMissingHierarchy := false, failMissingPath := false,
    failMissingEnvVar := false, skipEnvVarContent := true }

/-- The shape every reported token has, stated from the claim's reading
of the pattern: a dollar sign, an opening brace, one letter, then any
run of name characters, closed by a closing brace. -/
def tokenShape (tok : String) : Bool :=
  match tok.data with
  | c0 :: c1 :: c2 :: rest =>
    c0 = '$' && c1 = '{' && isAsciiLetter c2 &&
      rest.dropLast.all isNameChar && rest.getLast? = some '}'
  | _ => false

/-- The environment with only the variable named A.B set (the
uppercased form of the lowercase dotted name in the witness input). -/
def envDotted : String → String := fun n => if n == "A.B" then "w" else ""

/-- Monadic bind on a successful Except value. -/
theorem except_bind_ok {α β : Type} (b : α) (f : α → Except String β) :
    (Except.ok b >>= f) = f b := rfl

/-- Monadic bind on a failed Except value. -/
theorem except_bind_error {α β : Type} (e : String) (f : α → Except String β) :
    ((Except.error e : Except String α) >>= f) = Except.error e := rfl

/-- A step that fails on a given element, whatever the accumulated
state, makes the whole Except fold fail. -/
theorem foldlM_error_of_mem {α β : Type} (step : β → α → Except String β) (x : α) :
    ∀ (l : List α), x ∈ l → (∀ b, ∃ e, step b x = Except.error e) →
      ∀ (acc : β), ∃ e, List.foldlM step acc l = Except.error e := by
  intro l
  induction l with
  | nil => intro h; cases h
  | cons a as ih =>
    intro hmem hstep acc
    cases hs : step acc a with
    | error e => exact ⟨e, by simp [List.foldlM, hs, except_bind_error]⟩
    | ok b =>
      rcases List.mem_cons.mp hmem with heq | htl
      · subst heq
        rcases hstep acc with ⟨e, he⟩
        rw [hs] at he
        cases he
      · rcases ih htl hstep b with ⟨e, he⟩
        exact ⟨e, by simp [List.foldlM, hs, except_bind_ok, he]⟩

/-- Two step functions that agree on the traversed elements give equal
Except folds. -/
theorem foldlM_congr_steps {α β : Type} (step1 step2 : β → α → Except String β) :
    ∀ (l : List α) (acc : β), (∀ x ∈ l, ∀ b, step1 b x = step2 b x) →
      List.foldlM step1 acc l = List.foldlM step2 acc l := by
  intro l
  induction l with
  | nil => intro acc _; rfl
  | cons a as ih =>
    intro acc h
    have ha := h a (List.mem_cons_self a as) acc
    cases hs : step2 acc a with
    | error e => simp [List.foldlM, ha, hs, except_bind_error]
    | ok b =>
      simp only [List.foldlM, ha, hs, except_bind_ok]
      exact ih b (fun x hx => h x (List.mem_cons_of_mem a hx))

/-- A step that extends the accumulated list by the entry an option-valued
summary function yields makes the Except fold return the filterMap of
that function. -/
theorem foldlM_ok_filterMap {α : Type} (step : List String → α → Except String (List String))
    (f : α → Option String) :
    ∀ (l : List α) (acc : List String),
      (∀ x ∈ l, ∀ b, step b x = Except.ok (b ++ (f x).toList)) →
      List.foldlM step acc l = Except.ok (acc ++ l.filterMap f) := by
  intro l
  induction l with
  | nil => intro acc _; simp [List.foldlM]; rfl
  | cons a as ih =>
    intro acc h
    have ha := h a (List.mem_cons_self a as) acc
    simp only [List.foldlM, ha, except_bind_ok]
    rw [ih (acc ++ (f a).toList) (fun x hx => h x (List.mem_cons_of_mem a hx))]
    cases hf : f a <;> simp [List.filterMap_cons, hf, List.append_assoc]

/-- A string with no token match passes through the substituter
unchanged, with either policy. -/
theorem subst_ok_of_no_tokens (g : String → String) (s : String) (b : Bool)
    (h : findTokens s = []) : replaceEnvironmentVariables g s b = Except.ok s := by
  unfold replaceEnvironmentVariables
  rw [h]
  rfl

/-- With the fail-on-missing policy, any matched token whose uppercased
name is unset (or set to the empty string) in the environment makes the
substituter fail. -/
theorem subst_error_of_unset (g : String → String) (s : String) (tok : String)
    (hmem : tok ∈ findTokens s) (hunset : g (goToUpper (stripToken tok)) = "") :
    ∃ e, replaceEnvironmentVariables g s true = Except.error e := by
  unfold replaceEnvironmentVariables
  apply foldlM_error_of_mem (substToken g true) tok (findTokens s) hmem
  intro b
  refine ⟨"Environment variable not defined", ?_⟩
  unfold substToken
  rw [hunset]
  rfl

/-- With the warn-on-missing policy, a string all of whose matched
tokens are unset passes through the substituter unchanged: every token
is warned about and left unresolved. -/
theorem subst_ok_of_all_unset (g : String → String) (s : String)
    (h : ∀ tok ∈ findTokens s, g (goToUpper (stripToken tok)) = "") :
    replaceEnvironmentVariables g s false = Except.ok s := by
  unfold replaceEnvironmentVariables
  have main : ∀ (toks : List String) (s0 : String),
      (∀ tok ∈ toks, g (goToUpper (stripToken tok)) = "") →
      List.foldlM (substToken g false) s0 toks = Except.ok s0 := by
    intro toks
    induction toks with
    | nil => intro s0 _; rfl
    | cons t ts ih =>
      intro s0 hall
      have ht := hall t (List.mem_cons_self t ts)
      have hstep : substToken g false s0 t = Except.ok s0 := by
        unfold substToken
        rw [ht]
        rfl
      simp only [List.foldlM, hstep, except_bind_ok]
      exact ih s0 (fun x hx => hall x (List.mem_cons_of_mem t hx))
  exact main (findTokens s) s h

/-- A string whose single token match maps to a non-empty environment
value is rewritten by replacing every occurrence of the token with that
value, with either policy. -/
theorem subst_single_token (g : String → String) (s tok v : String) (b : Bool)
    (htoks : findTokens s = [tok]) (hval : g (goToUpper (stripToken tok)) = v)
    (hne : v ≠ "") :
    replaceEnvironmentVariables g s b = Except.ok (goReplaceAll s tok v) := by
  unfold replaceEnvironmentVariables
  rw [htoks]
  have hlen : v.length ≠ 0 := by
    intro h0
    apply hne
    cases v with
    | mk data => cases data with
      | nil => rfl
      | cons c cs => simp [String.length] at h0
  have hstep : substToken g b s tok = Except.ok (goReplaceAll s tok v) := by
    unfold substToken
    rw [hval]
    simp [hlen]
  simp [List.foldlM, hstep, except_bind_ok]

/-- Key lookup distributes over list append of mappings: the left part
is consulted first. -/
theorem lookupKV_append (k : String) :
    ∀ (a b : List (String × Val)),
      lookupKV k (a ++ b) =
        match lookupKV k a with
        | some v => some v
        | none => lookupKV k b := by
  intro a b
  induction a with
  | nil => rfl
  | cons e rest ih =>
    obtain ⟨k1, v⟩ := e
    by_cases h : k = k1 <;> simp [lookupKV, h, ih]

/-- Looking up a key in the rebuilt accumulator entries gives the
merged value exactly when the key was present in the accumulator. -/
theorem lookupKV_mergeOld (s : List (String × Val)) (k : String) :
    ∀ (d : List (String × Val)),
      lookupKV k (mergeOld d s) = (lookupKV k d).map (overrideVal s k) := by
  intro d
  induction d with
  | nil => simp [mergeOld, lookupKV]
  | cons e rest ih =>
    obtain ⟨k1, v⟩ := e
    by_cases h : k = k1
    · subst h
      simp [mergeOld, lookupKV]
    · simp [mergeOld, lookupKV, h, ih]

/-- Filtering the incoming entries down to fresh keys does not change
lookups of keys absent from the accumulator. -/
theorem lookupKV_filter_fresh (d : List (String × Val)) (k : String)
    (hk : lookupKV k d = none) :
    ∀ (s : List (String × Val)),
      lookupKV k (s.filter (fun e => (lookupKV e.1 d).isNone)) = lookupKV k s := by
  intro s
  induction s with
  | nil => rfl
  | cons e rest ih =>
    obtain ⟨k1, v⟩ := e
    by_cases h : k = k1
    · subst h
      simp [List.filter_cons, hk, lookupKV, ih]
    · by_cases hkeep : (lookupKV k1 d).isNone <;>
        simp [List.filter_cons, hkeep, lookupKV, h, ih]

/-- The value found under a key after one mapping-level merge: present
in both sides gives the (recursively) merged value, present in one side
gives that side's value. -/
theorem lookupKV_mergeMap (d s : List (String × Val)) (k : String) :
    lookupKV k (mergeMap d s) =
      match lookupKV k d, lookupKV k s with
      | some dv, some sv => some (Val.merge dv sv)
      | some dv, none => some dv
      | none, o => o := by
  rw [show mergeMap d s = mergeOld d s ++ s.filter (fun e => (lookupKV e.1 d).isNone)
    from by rw [mergeMap]]
  rw [lookupKV_append, lookupKV_mergeOld]
  cases hd : lookupKV k d with
  | none => simp [lookupKV_filter_fresh d k hd s]
  | some dv =>
    cases hs : lookupKV k s with
    | none => simp [overrideVal, hs]
    | some sv => simp [overrideVal, hs]

/-- C1: Deep merge uses override semantics: when the merge engine folds
a later fragment into the accumulator, for every key present in both
documents, if both values are mappings they are merged recursively (the
same rule at every nesting level), otherwise the incoming value
replaces the existing one, and keys present in only one side are
carried through unchanged; merging the mapping binding a to 1 and b to
the mapping with x 1, then the mapping binding a to 2 and b to the
mapping with y 2, yields a bound to 2 and b bound to the mapping with
x 1 and y 2. -/
theorem claim_C1_deep_merge_override :
    (∀ (d s : List (String × Val)) (k : String),
      lookupKV k (mergeMap d s) =
        match lookupKV k d, lookupKV k s with
        | some dv, some sv => some (Val.merge dv sv)
        | some dv, none => some dv
        | none, o => o)
    ∧ (∀ (v w : Val), Val.merge v w =
        match v, w with
        | Val.vmap d, Val.vmap s => Val.vmap (mergeMap d s)
        | _, w2 => w2)
    ∧ (mergeMap [("a", Val.vint 1), ("b", Val.vmap [("x", Val.vint 1)])]
          [("a", Val.vint 2), ("b", Val.vmap [("y", Val.vint 2)])]
        = [("a", Val.vint 2),
           ("b", Val.vmap [("x", Val.vint 1), ("y", Val.vint 2)])]) := by
  refine ⟨lookupKV_mergeMap, ?_, ?_⟩
  · intro v w
    cases v <;> cases w <;> simp [Val.merge]
  · simp [mergeMap, mergeOld, overrideVal, lookupKV, Val.merge]

/-- C2: for every key and every pair of successive fragments, an
incoming sequence value wholly replaces any existing value stored at
that key in the accumulator, regardless of whether the existing value
was itself a list; merging a mapping binding items to the list 1, 2 and
then a mapping binding items to the list 3 yields items bound to the
list 3. -/
theorem claim_C2_list_replacement :
    (∀ (v : Val) (l : List Val), Val.merge v (Val.vseq l) = Val.vseq l)
    ∧ (∀ (d s : List (String × Val)) (k : String) (l : List Val),
        lookupKV k s = some (Val.vseq l) →
        lookupKV k (mergeMap d s) = some (Val.vseq l))
    ∧ (mergeMap [("items", Val.vseq [Val.vint 1, Val.vint 2])]
          [("items", Val.vseq [Val.vint 3])]
        = [("items", Val.vseq [Val.vint 3])]) := by
  refine ⟨?_, ?_, ?_⟩
  · intro v l
    cases v <;> simp [Val.merge]
  · intro d s k l hs
    rw [lookupKV_mergeMap, hs]
    cases hd : lookupKV k d with
    | none => rfl
    | some dv => cases dv <;> simp [Val.merge]
  · simp [mergeMap, mergeOld, overrideVal, lookupKV, Val.merge]

/-- Witness for C2 at a concrete input: an incoming list overrides an
existing scalar at the same key wholesale. -/
theorem claim_C2_witness :
    lookupKV "items"
        (mergeMap [("items", Val.vstr "old")] [("items", Val.vseq [Val.vint 3])])
      = some (Val.vseq [Val.vint 3]) :=
  claim_C2_list_replacement.2.1 [("items", Val.vstr "old")]
    [("items", Val.vseq [Val.vint 3])] "items" [Val.vint 3] rfl

/-- C3: for every configuration with failMissingHierarchy false, if the
hierarchy file path (base path joined with the hierarchy file name)
does not exist, the resolver returns exactly the single-element list
holding the base path; and the synthesized fallback base-path entry is
unconditionally fatal when absent: whatever the policy flags, a base
directory that cannot be listed aborts the merge phase. -/
theorem claim_C3_missing_hierarchy_fallback :
    (∀ (sys : Sys) (cfg : Config),
      sys.statOk (sys.pathJoin cfg.basePath cfg.hierarchyFile) = false →
      cfg.failMissingHierarchy = false →
      processHierarchy sys cfg = Except.ok [cfg.basePath])
    ∧ (∀ (sys : Sys) (basePath fileFilter : String) (skipC failC : Bool)
        (e : String),
        sys.readDir basePath = Except.error e →
        isFatal (mergeFilesInHierarchy sys [basePath] fileFilter skipC failC)
          = true) := by
  constructor
  · intro sys cfg h1 h2
    simp [processHierarchy, h1, h2]
  · intro sys basePath fileFilter skipC failC e h
    simp [mergeFilesInHierarchy, List.foldlM, mergeOneDir, getFiles, h,
      except_bind_error, isFatal]

/-- Witness for C3 at a concrete system: the hierarchy file is absent,
the resolver falls back to the base path alone, and because the base
directory itself cannot be listed the merge phase is fatal. -/
theorem claim_C3_witness :
    processHierarchy
        { statOk := fun _ => false, isDir := fun _ => false,
          readLines := fun _ => Except.error "open",
          readDir := fun _ => Except.error "no such file or directory",
          readFile := fun _ => Except.error "read",
          yamlParse := fun _ => Except.error "parse",
          yamlMarshal := fun _ => "", getenv := fun _ => "",
          matchString := fun _ _ => Except.ok false,
          pathJoin := fun a b => a ++ "/" ++ b }
        { hierarchyFile := "hierarchy.lst", basePath := "base",
          outputFile := "out.yaml", filterExtension := "x",
          failMissingHierarchy := false, failMissingPath := false,
          failMissingEnvVar := false, skipEnvVarContent := false }
      = Except.ok ["base"]
    ∧ isFatal (mergeFilesInHierarchy
        { statOk := fun _ => false, isDir := fun _ => false,
          readLines := fun _ => Except.error "open",
          readDir := fun _ => Except.error "no such file or directory",
          readFile := fun _ => Except.error "read",
          yamlParse := fun _ => Except.error "parse",
          yamlMarshal := fun _ => "", getenv := fun _ => "",
          matchString := fun _ _ => Except.ok false,
          pathJoin := fun a b => a ++ "/" ++ b }
        ["base"] "x" false false) = true :=
  ⟨claim_C3_missing_hierarchy_fallback.1 _ _ rfl rfl,
   claim_C3_missing_hierarchy_fallback.2 _ "base" "x" false false
     "no such file or directory" rfl⟩

/-- C10 (implicit): for every readable directory, if the filter pattern
is not a syntactically valid regular expression (so that every match
attempt reports the compilation error), getFiles does not fail: every
non-directory entry is treated as non-matching and the returned file
list is empty. -/
theorem claim_C10_invalid_filter_empty :
    ∀ (sys : Sys) (p fileFilter : String) (entries : List DirEntry) (e : String),
      sys.readDir p = Except.ok entries →
      (∀ s, sys.matchString fileFilter s = Except.error e) →
      getFiles sys p fileFilter = Except.ok [] := by
  intro sys p fileFilter entries e hrd hm
  have hfold : ∀ (es : List DirEntry) (acc : List String),
      es.foldl (fun acc fi =>
        if !fi.isDir then
          match sys.matchString fileFilter fi.name with
          | Except.ok true => acc ++ [sys.pathJoin p fi.name]
          | _ => acc
        else acc) acc = acc := by
    intro es
    induction es with
    | nil => intro acc; rfl
    | cons fi rest ih =>
      intro acc
      cases hdir : fi.isDir <;> simp [List.foldl, hdir, hm, ih]
  simpa [getFiles, hrd] using hfold entries []

/-- Witness for C10 at a concrete system whose regexp engine rejects
the pattern on every match attempt. -/
theorem claim_C10_witness :
    getFiles
        { statOk := fun _ => true, isDir := fun _ => true,
          readLines := fun _ => Except.error "open",
          readDir := fun _ => Except.ok
            [{ name := "a.yaml", isDir := false },
             { name := "b.txt", isDir := false },
             { name := "sub", isDir := true }],
          readFile := fun _ => Except.error "read",
          yamlParse := fun _ => Except.error "parse",
          yamlMarshal := fun _ => "", getenv := fun _ => "",
          matchString := fun _ _ => Except.error "error parsing regexp",
          pathJoin := fun a b => a ++ "/" ++ b }
        "base" "(.yaml" = Except.ok [] :=
  claim_C10_invalid_filter_empty _ "base" "(.yaml"
    [{ name := "a.yaml", isDir := false },
     { name := "b.txt", isDir := false },
     { name := "sub", isDir := true }]
    "error parsing regexp" rfl (fun _ => rfl)

/-- C4: for every hierarchy file whose lines include comments, blank
lines, and entries naming nonexistent directories (and no variable
placeholders): with failMissingPath false the resolver returns exactly
the existing listed directories, joined onto the base path, in the
order listed, omitting every entry that does not exist or is not a
directory; with failMissingPath true a missing entry makes the resolver
fatal instead of returning a list. -/
theorem claim_C4_hierarchy_filtering :
    ∀ (sys : Sys) (cfg : Config) (lines : List String),
      sys.statOk (sys.pathJoin cfg.basePath cfg.hierarchyFile) = true →
      sys.readLines (sys.pathJoin cfg.basePath cfg.hierarchyFile) =
        Except.ok lines →
      (∀ l ∈ lines, findTokens (prepLine l) = []) →
      (cfg.failMissingPath = false →
        processHierarchy sys cfg = Except.ok (lines.filterMap (goodDir sys cfg)))
      ∧ (cfg.failMissingPath = true →
        ∀ bad ∈ lines, (prepLine bad).length > 0 →
          (sys.statOk (sys.pathJoin cfg.basePath (prepLine bad)) &&
            sys.isDir (sys.pathJoin cfg.basePath (prepLine bad))) = false →
          isFatal (processHierarchy sys cfg) = true) := by
  intro sys cfg lines hstat hread hnotok
  have hbranch : processHierarchy sys cfg =
      lines.foldlM (processHierarchyLine sys cfg) [] := by
    simp [processHierarchy, hstat, hread]
  constructor
  · intro hfmp
    rw [hbranch]
    apply foldlM_ok_filterMap
    intro l hl b
    have hsub := subst_ok_of_no_tokens sys.getenv (prepLine l) true (hnotok l hl)
    unfold processHierarchyLine
    rw [hsub]
    by_cases hlen : (prepLine l).length > 0
    · by_cases hdir : (sys.statOk (sys.pathJoin cfg.basePath (prepLine l)) &&
          sys.isDir (sys.pathJoin cfg.basePath (prepLine l))) = true
      · simp [hlen, hdir, goodDir]
      · simp only [Bool.not_eq_true] at hdir
        simp [hlen, hdir, hfmp, goodDir]
    · simp [hlen, goodDir]
  · intro hfmp bad hbad hlen hdir
    rw [hbranch]
    have herr : ∀ b, ∃ e,
        processHierarchyLine sys cfg b bad = Except.error e := by
      intro b
      have hsub := subst_ok_of_no_tokens sys.getenv (prepLine bad) true
        (hnotok bad hbad)
      refine ⟨"Hierarchy directory not found", ?_⟩
      unfold processHierarchyLine
      rw [hsub]
      simp [hlen, hdir, hfmp]
    rcases foldlM_error_of_mem (processHierarchyLine sys cfg) bad lines hbad
      herr [] with ⟨e, he⟩
    simp [he, isFatal]

/-- Witness for C4 at the concrete system: the two existing directories
are returned in listed order with the missing one omitted, and the
strict policy turns the run fatal. -/
theorem claim_C4_witness :
    processHierarchy sysHier cfgLoose = Except.ok ["base/d1", "base/d2"]
    ∧ isFatal (processHierarchy sysHier cfgStrict) = true := by
  constructor
  · have h := (claim_C4_hierarchy_filtering sysHier cfgLoose
      ["d1 # first layer", "", "# a comment", "d2", "missing"]
      rfl rfl (by decide)).1 rfl
    exact h.trans (by rfl)
  · exact (claim_C4_hierarchy_filtering sysHier cfgStrict
      ["d1 # first layer", "", "# a comment", "d2", "missing"]
      rfl rfl (by decide)).2 rfl "missing" (by decide) (by decide) rfl

/-- C5: environment-variable substitution applied to hierarchy-file
lines is always fail-fast: for every configuration (in particular,
whatever the failMissingEnvVar flag says), a hierarchy line containing
a token whose uppercased name is unset or empty in the environment
makes the resolver fatal; and when the variable is set, the line
resolves to the path with every occurrence of the token replaced by its
value. -/
theorem claim_C5_hierarchy_subst_fail_fast :
    (∀ (sys : Sys) (cfg : Config) (lines : List String) (line tok : String),
      sys.statOk (sys.pathJoin cfg.basePath cfg.hierarchyFile) = true →
      sys.readLines (sys.pathJoin cfg.basePath cfg.hierarchyFile) =
        Except.ok lines →
      line ∈ lines →
      tok ∈ findTokens (prepLine line) →
      sys.getenv (goToUpper (stripToken tok)) = "" →
      isFatal (processHierarchy sys cfg) = true)
    ∧ (∀ (g : String → String) (line tok v : String),
        findTokens (prepLine line) = [tok] →
        g (goToUpper (stripToken tok)) = v → v ≠ "" →
        replaceEnvironmentVariables g (prepLine line) true =
          Except.ok (goReplaceAll (prepLine line) tok v)) := by
  constructor
  · intro sys cfg lines line tok hstat hread hline htok hunset
    have hbranch : processHierarchy sys cfg =
        lines.foldlM (processHierarchyLine sys cfg) [] := by
      simp [processHierarchy, hstat, hread]
    rw [hbranch]
    have herr : ∀ b, ∃ e,
        processHierarchyLine sys cfg b line = Except.error e := by
      intro b
      rcases subst_error_of_unset sys.getenv (prepLine line) tok htok hunset
        with ⟨e, he⟩
      refine ⟨e, ?_⟩
      unfold processHierarchyLine
      rw [he]
    rcases foldlM_error_of_mem (processHierarchyLine sys cfg) line lines hline
      herr [] with ⟨e, he⟩
    simp [he, isFatal]
  · intro g line tok v htoks hval hne
    exact subst_single_token g (prepLine line) tok v true htoks hval hne

/-- Witness for C5 at a concrete input: with the variable unset the
resolver is fatal even though failMissingEnvVar is false, and with it
set the line resolves to the substituted path. -/
theorem claim_C5_witness :
    isFatal (processHierarchy sysEnvLine cfgLoose) = true
    ∧ replaceEnvironmentVariables envDev
        (prepLine "environments/$\x7bENVIRONMENT\x7d") true =
        Except.ok "environments/dev" := by
  constructor
  · exact claim_C5_hierarchy_subst_fail_fast.1 sysEnvLine cfgLoose
      ["environments/$\x7bENVIRONMENT\x7d"]
      "environments/$\x7bENVIRONMENT\x7d" "$\x7bENVIRONMENT\x7d"
      rfl rfl (by decide) (by decide) rfl
  · have h := claim_C5_hierarchy_subst_fail_fast.2 envDev
      "environments/$\x7bENVIRONMENT\x7d" "$\x7bENVIRONMENT\x7d" "dev"
      (by decide) rfl (by decide)
    exact h.trans (by rfl)

/-- C7: substitution over the serialized output document is governed by
the configured policies: with skipEnvVarContent true no substitution is
performed at all and the marshalled text is written as is; with it
false and every placeholder's variable unset, failMissingEnvVar false
leaves the tokens unresolved in the written output and the run still
succeeds, while failMissingEnvVar true makes the run fatal as soon as a
placeholder's variable is unset. -/
theorem claim_C7_output_subst_policies :
    ∀ (sys : Sys) (hierarchy : List String) (fileFilter : String)
      (failC : Bool) (data : List (String × Val)),
      hierarchy.foldlM (mergeOneDir sys fileFilter) [] = Except.ok data →
      (mergeFilesInHierarchy sys hierarchy fileFilter true failC =
        Except.ok (sys.yamlMarshal data))
      ∧ ((∀ tok ∈ findTokens (sys.yamlMarshal data),
            sys.getenv (goToUpper (stripToken tok)) = "") →
          mergeFilesInHierarchy sys hierarchy fileFilter false false =
            Except.ok (sys.yamlMarshal data))
      ∧ (∀ tok, tok ∈ findTokens (sys.yamlMarshal data) →
          sys.getenv (goToUpper (stripToken tok)) = "" →
          isFatal (mergeFilesInHierarchy sys hierarchy fileFilter false true)
            = true) := by
  intro sys hierarchy fileFilter failC data hfold
  refine ⟨?_, ?_, ?_⟩
  · simp [mergeFilesInHierarchy, hfold, finalizeOutput]
  · intro hall
    simp [mergeFilesInHierarchy, hfold, finalizeOutput,
      subst_ok_of_all_unset sys.getenv (sys.yamlMarshal data) hall]
  · intro tok htok hunset
    rcases subst_error_of_unset sys.getenv (sys.yamlMarshal data) tok htok
      hunset with ⟨e, he⟩
    simp [mergeFilesInHierarchy, hfold, finalizeOutput, he, isFatal]

/-- Witness for C7 at a concrete input over the empty hierarchy: with
substitution skipped or with the lenient policy the placeholder is left
unresolved in the successful output, and with the strict policy the run
is fatal. -/
theorem claim_C7_witness :
    mergeFilesInHierarchy sysOut [] "x" true false =
      Except.ok "greeting: $\x7bGREETING\x7d\n"
    ∧ mergeFilesInHierarchy sysOut [] "x" false false =
      Except.ok "greeting: $\x7bGREETING\x7d\n"
    ∧ isFatal (mergeFilesInHierarchy sysOut [] "x" false true) = true := by
  refine ⟨?_, ?_, ?_⟩
  · exact (claim_C7_output_subst_policies sysOut [] "x" false [] rfl).1
  · exact (claim_C7_output_subst_policies sysOut [] "x" false [] rfl).2.1
      (by decide)
  · exact (claim_C7_output_subst_policies sysOut [] "x" false [] rfl).2.2
      "$\x7bGREETING\x7d" (by decide) rfl

/-- C8: if an output file already exists at the configured output path
before a run, the orchestrator deletes it first: the removal is the
very first filesystem effect, before any merge output is written; and
if the run terminates fatally, the removal is the only effect, so no
output file remains afterwards. -/
theorem claim_C8_stale_output_removal :
    ∀ (sys : Sys) (cfg : Config),
      sys.statOk cfg.outputFile = true →
      ((mainRun sys cfg).1.head? = some (MainEvent.removeOut cfg.outputFile))
      ∧ (isFatal (mainRun sys cfg).2 = true →
          (mainRun sys cfg).1 = [MainEvent.removeOut cfg.outputFile]
          ∧ existsAfter sys (mainRun sys cfg).1 cfg.outputFile = false) := by
  intro sys cfg hstat
  cases hph : processHierarchy sys cfg with
  | error e =>
    constructor
    · simp [mainRun, hstat, hph]
    · intro _
      constructor
      · simp [mainRun, hstat, hph]
      · simp [mainRun, hstat, hph, existsAfter, applyEvent]
  | ok hierarchy =>
    cases hmg : mergeFilesInHierarchy sys hierarchy cfg.filterExtension
        cfg.skipEnvVarContent cfg.failMissingEnvVar with
    | error e =>
      constructor
      · simp [mainRun, hstat, hph, hmg]
      · intro _
        constructor
        · simp [mainRun, hstat, hph, hmg]
        · simp [mainRun, hstat, hph, hmg, existsAfter, applyEvent]
    | ok out =>
      constructor
      · simp [mainRun, hstat, hph, hmg]
      · intro hfatal
        exfalso
        simp [mainRun, hstat, hph, hmg, isFatal] at hfatal

/-- Witness for C8 at a concrete input: the pre-existing output file is
removed first, and after the fatal run no output file remains. -/
theorem claim_C8_witness :
    (mainRun sysStale cfgLoose).1.head? =
      some (MainEvent.removeOut "out.yaml")
    ∧ (mainRun sysStale cfgLoose).1 = [MainEvent.removeOut "out.yaml"]
    ∧ existsAfter sysStale (mainRun sysStale cfgLoose).1 "out.yaml" = false := by
  have h := claim_C8_stale_output_removal sysStale cfgLoose rfl
  have h2 := h.2 rfl
  exact ⟨h.1, h2.1, h2.2⟩

/-- C9: the pipeline is deterministic: its outcome, including the bytes
of the written output, is a pure function of the hierarchy file lines,
the directory listings, the file contents and their order.  Two runs
over identical inputs with no environment-variable dependency (no
placeholder in any hierarchy line, and content substitution disabled)
produce identical event traces and identical output text even when the
process environments of the two runs differ arbitrarily. -/
theorem claim_C9_pipeline_determinism :
    ∀ (sys : Sys) (g : String → String) (cfg : Config),
      cfg.skipEnvVarContent = true →
      (∀ lines, sys.readLines (sys.pathJoin cfg.basePath cfg.hierarchyFile) =
          Except.ok lines → ∀ l ∈ lines, findTokens (prepLine l) = []) →
      mainRun { sys with getenv := g } cfg = mainRun sys cfg := by
  intro sys g cfg hskip hlines
  obtain ⟨st, dr, rl, rd, rf, yp, ym, ge, ms, pj⟩ := sys
  have hph : processHierarchy (Sys.mk st dr rl rd rf yp ym g ms pj) cfg =
      processHierarchy (Sys.mk st dr rl rd rf yp ym ge ms pj) cfg := by
    unfold processHierarchy
    by_cases hc : (!st (pj cfg.basePath cfg.hierarchyFile) &&
        !cfg.failMissingHierarchy) = true
    · simp [hc]
    · simp only [Bool.not_eq_true] at hc
      cases hrd : rl (pj cfg.basePath cfg.hierarchyFile) with
      | error e => simp [hc, hrd]
      | ok lines =>
        simp only [hc, hrd, Bool.false_eq_true, if_false]
        apply foldlM_congr_steps
        intro l hl b
        have hno := hlines lines hrd l hl
        have h1 := subst_ok_of_no_tokens g (prepLine l) true hno
        have h2 := subst_ok_of_no_tokens ge (prepLine l) true hno
        unfold processHierarchyLine
        rw [h1, h2]
  have hmg : ∀ (hier : List String),
      mergeFilesInHierarchy (Sys.mk st dr rl rd rf yp ym g ms pj) hier
        cfg.filterExtension true cfg.failMissingEnvVar =
      mergeFilesInHierarchy (Sys.mk st dr rl rd rf yp ym ge ms pj) hier
        cfg.filterExtension true cfg.failMissingEnvVar := by
    intro hier
    unfold mergeFilesInHierarchy
    have hfold : hier.foldlM (mergeOneDir (Sys.mk st dr rl rd rf yp ym g ms pj)
        cfg.filterExtension) ([] : List (String × Val)) =
        hier.foldlM (mergeOneDir (Sys.mk st dr rl rd rf yp ym ge ms pj)
        cfg.filterExtension) ([] : List (String × Val)) := by
      apply foldlM_congr_steps
      intro p hp b
      rfl
    rw [hfold]
    cases hier.foldlM (mergeOneDir (Sys.mk st dr rl rd rf yp ym ge ms pj)
        cfg.filterExtension) ([] : List (String × Val)) with
    | error e => rfl
    | ok data => simp [finalizeOutput]
  unfold mainRun
  dsimp only
  rw [hph, hskip]
  cases processHierarchy (Sys.mk st dr rl rd rf yp ym ge ms pj) cfg with
  | error e => rfl
  | ok hierarchy =>
    dsimp only
    rw [hmg hierarchy]

/-- Witness for C9 at a concrete input: changing the process
environment between the two runs does not change the run's events or
output. -/
theorem claim_C9_witness :
    mainRun { sysDet with getenv := envDev } cfgDet = mainRun sysDet cfgDet :=
  claim_C9_pipeline_determinism sysDet envDev cfgDet rfl
    (by
      intro lines h
      have hlines : lines = ["d1"] := by
        have h2 : Except.ok ["d1"] = (Except.ok lines : Except String (List String)) := h
        cases h2
        rfl
      subst hlines
      decide)

/-- A scanner with no input finds nothing, whatever the fuel. -/
theorem findTokensFuel_nil : ∀ (fuel : Nat), findTokensFuel fuel [] = [] := by
  intro fuel
  cases fuel <;> rfl

/-- Dropping a prefix cannot lengthen a list. -/
theorem length_dropWhile_le (p : Char → Bool) :
    ∀ (l : List Char), (List.dropWhile p l).length ≤ l.length := by
  intro l
  induction l with
  | nil => simp [List.dropWhile]
  | cons a l ih =>
    by_cases h : p a
    · simp only [List.dropWhile, h, List.length_cons]
      omega
    · simp [List.dropWhile, h]

/-- Letters are name characters. -/
theorem isNameChar_of_letter (c : Char) (h : isAsciiLetter c = true) :
    isNameChar c = true := by
  simp [isNameChar, h]

/-- The token string assembled by the scanner has the token shape. -/
theorem tokenShape_mk (c2 : Char) (rest2 : List Char)
    (hl : isAsciiLetter c2 = true) :
    tokenShape (String.mk ('$' :: '{' ::
      (List.takeWhile isNameChar (c2 :: rest2) ++ ['}']))) = true := by
  have hname := isNameChar_of_letter c2 hl
  rw [List.takeWhile_cons, if_pos hname, List.cons_append]
  simp [tokenShape, hl, List.dropLast_concat, List.getLast?_concat,
    List.all_takeWhile]

/-- Every token the scanner reports matches the claimed pattern. -/
theorem findTokensFuel_sound :
    ∀ (fuel : Nat) (l : List Char) (tok : String),
      tok ∈ findTokensFuel fuel l → tokenShape tok = true := by
  intro fuel
  induction fuel with
  | zero => intro l tok h; simp [findTokensFuel] at h
  | succ f ih =>
    intro l tok h
    cases l with
    | nil => simp [findTokensFuel] at h
    | cons c rest =>
      by_cases hc : c = '$'
      · subst hc
        cases rest with
        | nil =>
          simp [findTokensFuel] at h
          exact ih [] tok (by simpa using h)
        | cons c1 rest1 =>
          cases rest1 with
          | nil =>
            simp [findTokensFuel] at h
            exact ih [c1] tok (by simpa using h)
          | cons c2 rest2 =>
            by_cases h12 : (c1 = '{' && isAsciiLetter c2) = true
            · cases hdw : List.dropWhile isNameChar (c2 :: rest2) with
              | nil =>
                simp [findTokensFuel, h12, hdw] at h
                exact ih (c1 :: c2 :: rest2) tok (by simpa using h)
              | cons c3 rest3 =>
                by_cases h3 : c3 = '}'
                · subst h3
                  simp [findTokensFuel, h12, hdw] at h
                  rcases h with htok | h
                  · subst htok
                    exact tokenShape_mk c2 rest2 (by
                      simp only [Bool.and_eq_true] at h12
                      exact h12.2)
                  · exact ih rest3 tok (by simpa using h)
                · simp [findTokensFuel, h12, hdw, h3] at h
                  exact ih (c1 :: c2 :: rest2) tok (by simpa using h)
            · simp [findTokensFuel, h12] at h
              exact ih (c1 :: c2 :: rest2) tok (by simpa using h)
      · simp [findTokensFuel, hc] at h
        exact ih rest tok (by simpa using h)

/-- The scanner's result does not depend on the fuel, as long as the
fuel is at least the length of the input. -/
theorem findTokensFuel_congr :
    ∀ (f1 : Nat) (l : List Char) (f2 : Nat),
      l.length ≤ f1 → l.length ≤ f2 →
      findTokensFuel f1 l = findTokensFuel f2 l := by
  intro f1
  induction f1 with
  | zero =>
    intro l f2 h1 h2
    have hl : l = [] := List.eq_nil_of_length_eq_zero (Nat.le_zero.mp h1)
    subst hl
    rw [findTokensFuel_nil, findTokensFuel_nil]
  | succ f ihf =>
    intro l f2 h1 h2
    cases l with
    | nil => rw [findTokensFuel_nil, findTokensFuel_nil]
    | cons c rest =>
      cases f2 with
      | zero =>
        exfalso
        simp [List.length_cons] at h2
      | succ g =>
        have hr1 : rest.length ≤ f := by simp [List.length_cons] at h1; omega
        have hr2 : rest.length ≤ g := by simp [List.length_cons] at h2; omega
        by_cases hc : c = '$'
        · subst hc
          cases rest with
          | nil => simp [findTokensFuel, findTokensFuel_nil]
          | cons c1 rest1 =>
            cases rest1 with
            | nil =>
              simp only [findTokensFuel]
              exact ihf [c1] g (by simp at hr1 ⊢; omega)
                (by simp at hr2 ⊢; omega)
            | cons c2 rest2 =>
              have hlen2 : rest2.length + 2 ≤ f := by
                simp [List.length_cons] at hr1; omega
              have hlen2g : rest2.length + 2 ≤ g := by
                simp [List.length_cons] at hr2; omega
              by_cases h12 : (c1 = '{' && isAsciiLetter c2) = true
              · cases hdw : List.dropWhile isNameChar (c2 :: rest2) with
                | nil =>
                  simp only [findTokensFuel, h12, hdw, if_true]
                  exact ihf (c1 :: c2 :: rest2) g hr1 hr2
                | cons c3 rest3 =>
                  have hlen3 : rest3.length ≤ rest2.length := by
                    have hle := length_dropWhile_le isNameChar (c2 :: rest2)
                    rw [hdw] at hle
                    simp [List.length_cons] at hle
                    omega
                  by_cases h3 : c3 = '}'
                  · subst h3
                    simp only [findTokensFuel, h12, hdw, if_true]
                    rw [ihf rest3 g (by omega) (by omega)]
                  · simp only [findTokensFuel, h12, hdw, if_true, h3,
                      if_false]
                    exact ihf (c1 :: c2 :: rest2) g hr1 hr2
              · simp only [findTokensFuel, h12]
                exact ihf (c1 :: c2 :: rest2) g hr1 hr2
        · simp only [findTokensFuel, hc, if_false]
          exact ihf rest g hr1 hr2

/-- takeWhile and dropWhile at the point where a run of satisfying
characters meets a failing one. -/
theorem takeWhile_append_stop (p : Char → Bool) :
    ∀ (l : List Char) (c : Char) (suffix : List Char),
      l.all p = true → p c = false →
      List.takeWhile p (l ++ c :: suffix) = l ∧
      List.dropWhile p (l ++ c :: suffix) = c :: suffix := by
  intro l
  induction l with
  | nil =>
    intro c suffix _ hpc
    constructor
    · simp [List.takeWhile, hpc]
    · simp [List.dropWhile, hpc]
  | cons a l ih =>
    intro c suffix hall hpc
    simp only [List.all_cons, Bool.and_eq_true] at hall
    obtain ⟨hpa, hrest⟩ := hall
    have htd := ih c suffix hrest hpc
    constructor
    · simp [List.takeWhile, hpa, htd.1]
    · simp [List.dropWhile, hpa, htd.2]

/-- The scanner skips a character that cannot start a token. -/
theorem findTokens_cons_skip (c : Char) (rest : List Char) (hc : c ≠ '$') :
    findTokens (String.mk (c :: rest)) = findTokens (String.mk rest) := by
  show findTokensFuel (c :: rest).length (c :: rest) =
    findTokensFuel rest.length rest
  rw [List.length_cons]
  simp only [findTokensFuel, hc, if_false]

/-- The scanner reports the token standing at the head of the input and
resumes right after its closing brace. -/
theorem findTokens_match_head (c2 : Char) (name post : List Char)
    (hl : isAsciiLetter c2 = true)
    (hall : (c2 :: name).all isNameChar = true) :
    findTokens (String.mk ('$' :: '{' :: c2 :: (name ++ '}' :: post))) =
      String.mk ('$' :: '{' :: c2 :: (name ++ ['}'])) ::
        findTokens (String.mk post) := by
  have hstop : isNameChar '}' = false := by decide
  have htd := takeWhile_append_stop isNameChar (c2 :: name) '}' post hall hstop
  have htake : List.takeWhile isNameChar (c2 :: (name ++ '}' :: post)) =
      c2 :: name := by
    have h1 := htd.1
    rw [List.cons_append] at h1
    exact h1
  have hdrop : List.dropWhile isNameChar (c2 :: (name ++ '}' :: post)) =
      '}' :: post := by
    have h2 := htd.2
    rw [List.cons_append] at h2
    exact h2
  show findTokensFuel ('$' :: '{' :: c2 :: (name ++ '}' :: post)).length
      ('$' :: '{' :: c2 :: (name ++ '}' :: post)) =
    String.mk ('$' :: '{' :: c2 :: (name ++ ['}'])) ::
      findTokensFuel post.length post
  simp only [List.length_cons]
  simp [findTokensFuel, htake, hdrop, hl]
  apply findTokensFuel_congr
  · omega
  · omega

/-- A wellformed token preceded by dollar-free text and followed by
arbitrary text is reported as the first match, and scanning resumes
after it: the completeness direction of the pattern search. -/
theorem findTokens_insert :
    ∀ (pre : List Char) (c2 : Char) (name post : List Char),
      '$' ∉ pre → isAsciiLetter c2 = true →
      (c2 :: name).all isNameChar = true →
      findTokens (String.mk (pre ++ '$' :: '{' :: c2 :: (name ++ '}' :: post))) =
        String.mk ('$' :: '{' :: c2 :: (name ++ ['}'])) ::
          findTokens (String.mk post) := by
  intro pre
  induction pre with
  | nil =>
    intro c2 name post _ hl hall
    simpa using findTokens_match_head c2 name post hl hall
  | cons x pre ih =>
    intro c2 name post hpre hl hall
    have hx : x ≠ '$' := by
      intro hxe
      exact hpre (hxe ▸ List.mem_cons_self x pre)
    rw [List.cons_append, findTokens_cons_skip x _ hx]
    exact ih c2 name post (fun hmem => hpre (List.mem_cons_of_mem x hmem))
      hl hall

/-- Stripping the delimiters of a wellformed token yields exactly the
name between the braces. -/
theorem stripToken_mk (inner : List Char) :
    stripToken (String.mk ('$' :: '{' :: (inner ++ ['}']))) = String.mk inner := by
  have hpre : List.isPrefixOf ['$', '{'] ('$' :: '{' :: (inner ++ ['}'])) = true := by
    simp [List.isPrefixOf]
  have hrev : (inner ++ ['}']).reverse = '}' :: inner.reverse := by
    simp
  have hsuf : List.isPrefixOf ['}'] ((inner ++ ['}']).reverse) = true := by
    rw [hrev]
    simp [List.isPrefixOf]
  simp [stripToken, goTrimPrefix, goTrimSuffix, hpre, hsuf, hrev]

/-- C6: Substitute finds every non-overlapping token matching the
pattern dollar, opening brace, one letter, then any run of
letters/digits/underscores/periods/literal brackets, closing brace
(soundness and completeness of the scanner); for each token it strips
the delimiters, uppercases the name, and looks it up in the process
environment; a found non-empty value replaces every occurrence of that
exact token, and a variable set to the empty string is treated as not
found. -/
theorem claim_C6_substitute_token_semantics :
    (∀ (s tok : String), tok ∈ findTokens s → tokenShape tok = true)
    ∧ (∀ (pre : List Char) (c2 : Char) (name post : List Char),
        '$' ∉ pre → isAsciiLetter c2 = true →
        (c2 :: name).all isNameChar = true →
        findTokens (String.mk (pre ++ '$' :: '{' :: c2 ::
            (name ++ '}' :: post))) =
          String.mk ('$' :: '{' :: c2 :: (name ++ ['}'])) ::
            findTokens (String.mk post))
    ∧ (∀ (inner : List Char),
        stripToken (String.mk ('$' :: '{' :: (inner ++ ['}']))) =
          String.mk inner)
    ∧ (∀ (g : String → String) (s tok v : String) (b : Bool),
        findTokens s = [tok] → g (goToUpper (stripToken tok)) = v → v ≠ "" →
        replaceEnvironmentVariables g s b = Except.ok (goReplaceAll s tok v))
    ∧ (∀ (g : String → String) (s tok : String),
        tok ∈ findTokens s → g (goToUpper (stripToken tok)) = "" →
        isFatal (replaceEnvironmentVariables g s true) = true) := by
  refine ⟨?_, findTokens_insert, stripToken_mk, subst_single_token, ?_⟩
  · intro s tok h
    exact findTokensFuel_sound s.data.length s.data tok h
  · intro g s tok h hunset
    rcases subst_error_of_unset g s tok h hunset with ⟨e, he⟩
    simp [he, isFatal]

/-- Witness for C6 at concrete inputs: a bracketed name is matched, a
token inside surrounding text is found exactly once, delimiters strip
to the name, a set (lowercase) variable replaces its token after
uppercased lookup, and an empty-valued variable is fatal under the
fail-on-missing policy. -/
theorem claim_C6_witness :
    tokenShape "$\x7bA]b\x7d" = true
    ∧ findTokens "x $\x7bA.1\x7d!" = ["$\x7bA.1\x7d"]
    ∧ stripToken "$\x7bENV\x7d" = "ENV"
    ∧ replaceEnvironmentVariables envDotted "z$\x7ba.b\x7d" false =
        Except.ok "zw"
    ∧ isFatal (replaceEnvironmentVariables (fun _ => "") "$\x7bQ\x7d" true)
        = true := by
  refine ⟨?_, ?_, ?_, ?_, ?_⟩
  · exact claim_C6_substitute_token_semantics.1 "$\x7bA]b\x7d" "$\x7bA]b\x7d"
      (by decide)
  · have h := claim_C6_substitute_token_semantics.2.1 ['x', ' '] 'A'
      ['.', '1'] ['!'] (by decide) (by decide) (by decide)
    exact h.trans (by decide)
  · exact (claim_C6_substitute_token_semantics.2.2.1 ['E', 'N', 'V']).trans
      (by decide)
  · have h := claim_C6_substitute_token_semantics.2.2.2.1 envDotted
      "z$\x7ba.b\x7d" "$\x7ba.b\x7d" "w" false (by decide) (by decide)
      (by decide)
    exact h.trans (by rfl)
  · exact claim_C6_substitute_token_semantics.2.2.2.2 (fun _ => "")
      "$\x7bQ\x7d" "$\x7bQ\x7d" (by decide) rfl
